import Mathlib

/-!
Shallow embedding of the column-list editor in
src/chat2db-client/src/blocks/DatabaseTableEditor/ColumnList/index.tsx.

The component state is the ordered list of column records (`dataSource`)
together with the key of the record currently in edit mode (`editingKey`,
the empty string when no edit session is active, mirroring
useState('')).  The event handlers onDragEnd, formChange, addData,
deleteData and moveData are translated one by one; the uuidv4() calls are
modelled by explicit fresh-key parameters, and the antd form buffer read
by formChange is modelled as an explicit argument carrying the fields the
form can hold (a missing field of the buffer is `none`, so the JavaScript
object spread only overrides the fields that are present).
-/

namespace Chat2DB

/-- A column record: the `Item` interface of the source (key, columnName,
length, fieldType, nullable) plus the `comment` property that the
normalization step attaches to each row. -/
structure Item where
  key : String
  columnName : String
  length : Option Int
  fieldType : Option String
  nullable : Bool
  comment : Option String
  deriving DecidableEq

/-- Component state: `dataSource` (useState<Item[]>([])) and `editingKey`
(useState(''), the empty string meaning that no edit session is active). -/
structure CState where
  dataSource : List Item
  editingKey : String
  deriving DecidableEq

/-- The index clamping performed by JavaScript Array.prototype.splice: a
negative start counts from the end (clamped at 0), a positive one is
clamped at the length. -/
def jsSpliceStart (len : Nat) (start : Int) : Nat :=
  if start < 0 then ((len : Int) + start).toNat else min start.toNat len

/-- JavaScript findIndex over the key field, as used in onDragEnd
(`previous.findIndex((i) => i.key === active.id)`) and moveData
(`dataSource.findIndex(i => i.key === editingKey)`): the first matching
index, or -1 when no element matches. -/
def findIndexKey (l : List Item) (k : String) : Int :=
  match l.findIdx? (fun r => r.key == k) with
  | some i => (i : Int)
  | none => -1

/-- `arrayMove` of the dnd-kit library, called by onDragEnd:

  const newArray = array.slice();
  newArray.splice(to < 0 ? newArray.length + to : to, 0,
                  newArray.splice(from, 1)[0]);
  return newArray;

JavaScript evaluates the first argument of the outer splice before the
inner splice runs, so `newArray.length` there is the ORIGINAL length; the
inner splice then removes one element (at `from` clamped as splice does)
and the outer splice inserts it at the computed position clamped by the
shortened length.  When the inner splice removes nothing (only possible
here on an empty array) JavaScript would insert `undefined`; that
degenerate case is modelled as returning the array unchanged. -/
def arrayMove (array : List Item) (fromIdx toIdx : Int) : List Item :=
  let insRaw : Int := if toIdx < 0 then (array.length : Int) + toIdx else toIdx
  let remStart : Nat := jsSpliceStart array.length fromIdx
  match array[remStart]? with
  | some x =>
      (array.eraseIdx remStart).insertIdx
        (jsSpliceStart (array.eraseIdx remStart).length insRaw) x
  | none => array.eraseIdx remStart

/-- The drag-end move: onDragEnd with `active.id = a` and `over.id = b`
runs `arrayMove(previous, activeIndex, overIndex)` only when
`active.id !== over?.id`, with both indices computed by findIndex. -/
def move (l : List Item) (a b : String) : List Item :=
  if a == b then l
  else arrayMove l (findIndexKey l a) (findIndexKey l b)

/-- edit(record): `form.setFieldsValue({...record}); setEditingKey(record.key)`.
The form buffer lives outside this model (formChange receives the buffer
it would read back), so only the editingKey update is recorded. -/
def edit (record : Item) (st : CState) : CState :=
  { st with editingKey := record.key }

/-- addData: builds a record with empty/default fields and a fresh
uuidv4() key (the generated key is passed in as `fresh`), appends it, and
opens an edit session on it.  The source's newData has no comment
property, modelled as `none`. -/
def addData (fresh : String) (st : CState) : CState :=
  let newData : Item :=
    { key := fresh, columnName := "", length := none, fieldType := none,
      nullable := false, comment := none }
  edit newData { st with dataSource := st.dataSource ++ [newData] }

/-- deleteData: `setDataSource(dataSource.filter(i => i.key !== editingKey))`.
Note that the source does not touch editingKey here. -/
def deleteData (st : CState) : CState :=
  { st with dataSource := st.dataSource.filter (fun i => i.key != st.editingKey) }

/-- The argument of moveData: the 'up' | 'down' action string. -/
inductive MoveAction where
  | up
  | down
  deriving DecidableEq

/-- Fallback record for the JavaScript array reads `dataSource[index - 1]`
and `dataSource[index + 1]` in moveData; the guards of moveData keep every
such read in bounds, so the fallback is never the value actually used. -/
def defaultItem : Item :=
  { key := "", columnName := "", length := none, fieldType := none,
    nullable := false, comment := none }

/-- moveData(action): finds the index of the session record, returns
unchanged at index -1, at index 0 for 'up' and at the last index for
'down'; otherwise swaps the record with its neighbour by the two indexed
writes of the source (`newData[index] = dataSource[index - 1];
newData[index - 1] = dataSource[index]` and symmetrically for 'down'). -/
def moveData (action : MoveAction) (st : CState) : CState :=
  let idx : Int := findIndexKey st.dataSource st.editingKey
  if idx = -1 then st
  else
    let i : Nat := idx.toNat
    let l := st.dataSource
    match action with
    | .up =>
        if i = 0 then st
        else
          { st with dataSource := (l.set i (l.getD (i - 1) defaultItem)).set (i - 1) (l.getD i defaultItem) }
    | .down =>
        if i = l.length - 1 then st
        else
          { st with dataSource := (l.set i (l.getD (i + 1) defaultItem)).set (i + 1) (l.getD i defaultItem) }

/-- The fields the antd form can hold for a row; `form.getFieldsValue()`
returns an object with the fields that are present, and the spread
`{...i, ...newData}` overrides exactly those.  A field absent from the
buffer is `none`. -/
structure FormFields where
  columnName : Option String
  length : Option (Option Int)
  fieldType : Option (Option String)
  nullable : Option Bool
  comment : Option (Option String)
  deriving DecidableEq

/-- The object spread `{...i, ...newData}` of formChange: buffer fields
that are present override, the rest (and the key, which the form never
holds) are taken from the record. -/
def mergeFields (i : Item) (b : FormFields) : Item :=
  { key := i.key
    columnName := b.columnName.getD i.columnName
    length := b.length.getD i.length
    fieldType := b.fieldType.getD i.fieldType
    nullable := b.nullable.getD i.nullable
    comment := b.comment.getD i.comment }

/-- formChange: maps over dataSource, replacing the records whose key
equals editingKey by the spread of the form buffer over them. -/
def formChange (b : FormFields) (st : CState) : CState :=
  { st with dataSource :=
      st.dataSource.map (fun i =>
        if i.key == st.editingKey then mergeFields i b else i) }

/-- One row of the incoming table metadata
(`{name, dataType, columnType, nullable, comment}`). -/
structure MetaRow where
  name : String
  dataType : Option Int
  columnType : Option String
  nullable : Int
  comment : Option String
  deriving DecidableEq

/-- The incoming tableDetails value: its columnList may be absent. -/
structure TableDetails where
  columnList : Option (List MetaRow)
  deriving DecidableEq

/-- One row of the normalization map of the tableDetails effect:
`{key: uuidv4(), columnName: t.name, length: t.dataType,
fieldType: t.columnType, nullable: t.nullable === 0, comment: t.comment}`;
the uuid is passed in as `freshKey`. -/
def normalizeRow (t : MetaRow) (freshKey : String) : Item :=
  { key := freshKey, columnName := t.name, length := t.dataType,
    fieldType := t.columnType, nullable := t.nullable == 0,
    comment := t.comment }

/-- The tableDetails effect: `if (tableDetails) {
setDataSource(tableDetails?.columnList?.map(t => ...) || []) }` — when
tableDetails is absent the guard fails and the state is left untouched;
when columnList is absent the optional chain yields undefined and `|| []`
makes the list empty.  `gen` supplies the per-row uuidv4() keys. -/
def applyTableDetails (td : Option TableDetails) (gen : Nat → String)
    (st : CState) : CState :=
  match td with
  | none => st
  | some d =>
      { st with dataSource :=
          (d.columnList.map (fun rows =>
            rows.enum.map (fun p => normalizeRow p.2 (gen p.1)))).getD [] }

/-- Concrete record used by counterexamples and witnesses. -/
def itemA : Item :=
  { key := "a", columnName := "A", length := none, fieldType := none,
    nullable := false, comment := none }

/-- Concrete record used by counterexamples and witnesses. -/
def itemB : Item :=
  { key := "b", columnName := "B", length := some 2, fieldType := some "int",
    nullable := true, comment := none }

/-- Concrete record used by counterexamples and witnesses. -/
def itemC : Item :=
  { key := "c", columnName := "C", length := none, fieldType := none,
    nullable := false, comment := some "x" }

/-- Concrete three-element list used by counterexamples and witnesses. -/
def lABC : List Item := [itemA, itemB, itemC]

/-- Concrete state with an edit session on itemB. -/
def stM : CState := { dataSource := lABC, editingKey := "b" }

/-- Concrete state with no edit session. -/
def stE : CState := { dataSource := lABC, editingKey := "" }

/-- Concrete form buffer carrying only a columnName value. -/
def bW : FormFields :=
  { columnName := some "x", length := none, fieldType := none,
    nullable := none, comment := none }

/-! ## Helper lemmas -/

/-- Inserting at a valid position is a permutation of consing. -/
theorem insertIdx_perm_cons {α : Type} (x : α) :
    ∀ (n : Nat) (l : List α), n ≤ l.length → (l.insertIdx n x).Perm (x :: l)
  | 0, l, _ => by rw [List.insertIdx_zero]
  | n + 1, [], h => by simp at h
  | n + 1, a :: t, h => by
      rw [List.insertIdx_succ_cons]
      exact ((insertIdx_perm_cons x n t (by simpa using h)).cons a).trans
        (List.Perm.swap x a t)

/-- Consing back the element removed at a valid index is a permutation. -/
theorem cons_eraseIdx_perm {α : Type} (x : α) :
    ∀ (l : List α) (i : Nat), l[i]? = some x → (x :: l.eraseIdx i).Perm l
  | [], i, h => by simp at h
  | a :: t, 0, h => by
      rw [List.getElem?_cons_zero, Option.some.injEq] at h
      subst h
      rw [List.eraseIdx_cons_zero]
  | a :: t, i + 1, h => by
      rw [List.getElem?_cons_succ] at h
      rw [List.eraseIdx_cons_succ]
      exact (List.Perm.swap a x _).trans ((cons_eraseIdx_perm x t i h).cons a)

/-- Filtering ignores an inserted element that fails the predicate. -/
theorem filter_insertIdx {α : Type} (p : α → Bool) (x : α) (hx : p x = false) :
    ∀ (n : Nat) (l : List α), (l.insertIdx n x).filter p = l.filter p
  | 0, l => by rw [List.insertIdx_zero, List.filter_cons, hx]; simp
  | n + 1, [] => by rw [List.insertIdx_succ_nil]
  | n + 1, a :: t => by
      rw [List.insertIdx_succ_cons, List.filter_cons, List.filter_cons,
        filter_insertIdx p x hx n t]

/-- Filtering ignores the removal of an element that fails the predicate. -/
theorem filter_eraseIdx_of_false {α : Type} (p : α → Bool) :
    ∀ (l : List α) (i : Nat) (x : α), l[i]? = some x → p x = false →
      (l.eraseIdx i).filter p = l.filter p
  | [], i, x, h, _ => by simp at h
  | a :: t, 0, x, h, hx => by
      rw [List.getElem?_cons_zero, Option.some.injEq] at h
      subst h
      rw [List.eraseIdx_cons_zero, List.filter_cons, hx]
      simp
  | a :: t, i + 1, x, h, hx => by
      rw [List.getElem?_cons_succ] at h
      rw [List.eraseIdx_cons_succ, List.filter_cons, List.filter_cons,
        filter_eraseIdx_of_false p t i x h hx]

/-- The splice start clamp never exceeds the length. -/
theorem jsSpliceStart_le (len : Nat) (start : Int) : jsSpliceStart len start ≤ len := by
  unfold jsSpliceStart
  split
  · omega
  · exact Nat.min_le_right _ _

/-- arrayMove always returns a permutation of its input. -/
theorem arrayMove_perm (array : List Item) (fromIdx toIdx : Int) :
    (arrayMove array fromIdx toIdx).Perm array := by
  simp only [arrayMove]
  split
  next x h =>
    exact (insertIdx_perm_cons x _ _ (jsSpliceStart_le _ _)).trans
      (cons_eraseIdx_perm x array _ h)
  next h =>
    rw [List.eraseIdx_of_length_le (List.getElem?_eq_none_iff.mp h)]

/-- The drag-end move always returns a permutation of the list. -/
theorem move_perm (l : List Item) (a b : String) : (move l a b).Perm l := by
  simp only [move]
  split
  · exact List.Perm.refl l
  · exact arrayMove_perm l _ _

/-- findIndexKey in terms of findIdx?, found case. -/
theorem findIndexKey_eq_of_findIdx (l : List Item) (k : String) (i : Nat)
    (h : l.findIdx? (fun r => r.key == k) = some i) :
    findIndexKey l k = (i : Int) := by
  simp [findIndexKey, h]

/-- findIndexKey in terms of findIdx?, not-found case. -/
theorem findIndexKey_eq_neg_one (l : List Item) (k : String)
    (h : l.findIdx? (fun r => r.key == k) = none) :
    findIndexKey l k = -1 := by
  simp [findIndexKey, h]

/-- A found index is in bounds and the record there carries the key. -/
theorem findIdx?_key_facts {l : List Item} {k : String} {i : Nat}
    (h : l.findIdx? (fun r => r.key == k) = some i) :
    ∃ hlt : i < l.length, l[i].key = k := by
  obtain ⟨hlt, hp, -⟩ := List.findIdx?_eq_some_iff_getElem.mp h
  exact ⟨hlt, by simpa using hp⟩

/-- The two indexed writes of moveData('up') write the adjacent swap. -/
theorem set_swap_up {α : Type} (d : α) :
    ∀ (l : List α) (i : Nat), i + 1 < l.length →
      (l.set (i + 1) (l.getD i d)).set i (l.getD (i + 1) d)
        = l.take i ++ l.getD (i + 1) d :: l.getD i d :: l.drop (i + 2)
  | [], i, h => by simp at h
  | [a], i, h => by simp at h
  | a :: b :: t, 0, h => rfl
  | a :: b :: t, i + 1, h => by
      have ih := set_swap_up d (b :: t) i (by simpa using h)
      have step := congrArg (fun s => a :: s) ih
      simpa using step

/-- The two indexed writes of moveData('down') write the adjacent swap. -/
theorem set_swap_down {α : Type} (d : α) :
    ∀ (l : List α) (i : Nat), i + 1 < l.length →
      (l.set i (l.getD (i + 1) d)).set (i + 1) (l.getD i d)
        = l.take i ++ l.getD (i + 1) d :: l.getD i d :: l.drop (i + 2)
  | [], i, h => by simp at h
  | [a], i, h => by simp at h
  | a :: b :: t, 0, h => rfl
  | a :: b :: t, i + 1, h => by
      have ih := set_swap_down d (b :: t) i (by simpa using h)
      have step := congrArg (fun s => a :: s) ih
      simpa using step

/-- Decomposition of a list around two adjacent in-bounds positions. -/
theorem take_getD_getD_drop {α : Type} (d : α) :
    ∀ (l : List α) (i : Nat), i + 1 < l.length →
      l.take i ++ l.getD i d :: l.getD (i + 1) d :: l.drop (i + 2) = l
  | [], i, h => by simp at h
  | [a], i, h => by simp at h
  | a :: b :: t, 0, h => rfl
  | a :: b :: t, i + 1, h => by
      have ih := take_getD_getD_drop d (b :: t) i (by simpa using h)
      have step := congrArg (fun s => a :: s) ih
      simpa using step

/-- moveData('up') reduced at a found session index. -/
theorem moveData_up_eq (st : CState) (i : Nat)
    (hi : findIndexKey st.dataSource st.editingKey = (i : Int)) :
    moveData .up st = if i = 0 then st
      else { st with dataSource := (st.dataSource.set i (st.dataSource.getD (i - 1) defaultItem)).set (i - 1) (st.dataSource.getD i defaultItem) } := by
  simp only [moveData, hi]
  rw [if_neg (by omega : ¬((i : Int) = -1))]
  simp

/-- moveData('down') reduced at a found session index. -/
theorem moveData_down_eq (st : CState) (i : Nat)
    (hi : findIndexKey st.dataSource st.editingKey = (i : Int)) :
    moveData .down st = if i = st.dataSource.length - 1 then st
      else { st with dataSource := (st.dataSource.set i (st.dataSource.getD (i + 1) defaultItem)).set (i + 1) (st.dataSource.getD i defaultItem) } := by
  simp only [moveData, hi]
  rw [if_neg (by omega : ¬((i : Int) = -1))]
  simp

/-- moveData with a dangling or empty session key is the identity. -/
theorem moveData_none_eq (st : CState)
    (h : st.dataSource.findIdx? (fun r => r.key == st.editingKey) = none)
    (a : MoveAction) : moveData a st = st := by
  simp [moveData, findIndexKey_eq_neg_one _ _ h]

/-- moveData always returns a permutation of the list. -/
theorem moveData_perm (a : MoveAction) (st : CState) :
    ((moveData a st).dataSource).Perm st.dataSource := by
  cases h : st.dataSource.findIdx? (fun r => r.key == st.editingKey) with
  | none => rw [moveData_none_eq st h a]
  | some i =>
      obtain ⟨hlt, -⟩ := findIdx?_key_facts h
      have hfk := findIndexKey_eq_of_findIdx _ _ _ h
      cases a with
      | up =>
          rw [moveData_up_eq st i hfk]
          by_cases h0 : i = 0
          · rw [if_pos h0]
          · rw [if_neg h0]
            obtain ⟨j, rfl⟩ : ∃ j, i = j + 1 := ⟨i - 1, by omega⟩
            dsimp only
            simp only [Nat.add_sub_cancel]
            rw [set_swap_up defaultItem st.dataSource j hlt]
            conv_rhs => rw [← take_getD_getD_drop defaultItem st.dataSource j hlt]
            exact List.Perm.append_left _ (List.Perm.swap _ _ _)
      | down =>
          rw [moveData_down_eq st i hfk]
          by_cases hlast : i = st.dataSource.length - 1
          · rw [if_pos hlast]
          · rw [if_neg hlast]
            have hi1 : i + 1 < st.dataSource.length := by omega
            dsimp only
            rw [set_swap_down defaultItem st.dataSource i hi1]
            conv_rhs => rw [← take_getD_getD_drop defaultItem st.dataSource i hi1]
            exact List.Perm.append_left _ (List.Perm.swap _ _ _)

/-! ## Claims -/

/-- C3 (counterexample): the claim says move is the identity when either
id is absent; with sourceId "zz" absent, onDragEnd passes findIndex = -1
into arrayMove, whose splice semantics move the LAST element to the
target's slot, so the two-element list changes. -/
theorem move_absent_id_not_identity :
    move [itemA, itemB] "zz" "a" ≠ [itemA, itemB] := by decide

/-- C3 (amended): for every list, move(list, sourceId, targetId) is the
identity whenever sourceId equals targetId. -/
theorem move_self_identity (l : List Item) (a : String) : move l a a = l := by
  simp [move]

/-- C10: normalization maps t.nullable to the nullable flag (true exactly
when t.nullable = 0, false for every other value), t.dataType into the
length field and t.columnType into the fieldType field. -/
theorem normalizeRow_spec (t : MetaRow) (k : String) :
    ((normalizeRow t k).nullable = true ↔ t.nullable = 0) ∧
    (normalizeRow t k).length = t.dataType ∧
    (normalizeRow t k).fieldType = t.columnType := by
  refine ⟨?_, rfl, rfl⟩
  simp [normalizeRow]

/-- C8 (counterexample): the claim says missing table metadata yields an
empty column list, but the effect body is guarded by `if (tableDetails)`,
so with tableDetails absent an existing non-empty list stays non-empty. -/
theorem applyTableDetails_missing_keeps_list :
    (applyTableDetails none (fun _ => "k") stM).dataSource ≠ [] := by decide

/-- C8 (amended): when the metadata object is present but its column list
is absent the normalization yields an empty column list; when the
metadata object itself is absent the normalization step is skipped and
the state is unchanged. -/
theorem applyTableDetails_spec (st : CState) (gen : Nat → String) :
    (∀ d : TableDetails, d.columnList = none →
      (applyTableDetails (some d) gen st).dataSource = []) ∧
    applyTableDetails none gen st = st := by
  constructor
  · intro d hd
    simp [applyTableDetails, hd]
  · rfl

/-- C8 (witness): the amended theorem evaluated at a concrete state and a
metadata object with no column list. -/
theorem applyTableDetails_spec_check :
    (applyTableDetails (some { columnList := none }) (fun _ => "k") stM).dataSource = [] :=
  (applyTableDetails_spec stM (fun _ => "k")).1 { columnList := none } rfl

/-- C2 (counterexample): from the initial state, add a record (fresh key
"k1", session on it) and delete it: deleteData leaves editingKey = "k1"
while the list is empty, so the session is set but references no present
id — the invariant and the clears-the-session part both fail. -/
theorem deleteData_dangling_session :
    (deleteData (addData "k1" { dataSource := [], editingKey := "" })).editingKey = "k1" ∧
    (deleteData (addData "k1" { dataSource := [], editingKey := "" })).dataSource = [] := by
  decide

/-- C2 (amended): deleteData removes every record carrying the session id
but leaves the session identifier unchanged; afterwards no record in the
list has the session's id (the stale identifier matches no record, which
is behaviourally the same as no session for the other operations). -/
theorem deleteData_keeps_session_key (st : CState) :
    (deleteData st).editingKey = st.editingKey ∧
    ((deleteData st).dataSource.all (fun x => x.key != st.editingKey)) = true := by
  refine ⟨rfl, ?_⟩
  rw [List.all_eq_true]
  intro x hx
  exact (List.mem_filter.mp hx).2

/-- With unique keys, filtering out the session key equals erasing the
record at its found index. -/
theorem filter_key_eraseIdx :
    ∀ (l : List Item) (k : String) (i : Nat),
      (l.map Item.key).Nodup → l.findIdx? (fun r => r.key == k) = some i →
      l.filter (fun r => r.key != k) = l.eraseIdx i
  | [], k, i, _, h => by simp at h
  | a :: t, k, i, hnd, h => by
      rw [List.findIdx?_cons] at h
      by_cases hak : (a.key == k) = true
      · rw [if_pos hak] at h
        obtain rfl : (0 : Nat) = i := by simpa using h
        have hkeq : a.key = k := by simpa using hak
        have hnotmem : k ∉ t.map Item.key := by
          rw [List.map_cons, List.nodup_cons] at hnd
          exact hkeq ▸ hnd.1
        have h1 : t.filter (fun r => r.key != k) = t := by
          apply List.filter_eq_self.mpr
          intro x hx
          have : x.key ≠ k := fun heq => hnotmem (heq ▸ List.mem_map_of_mem Item.key hx)
          simpa using this
        have h2 : ((a.key != k) : Bool) = false := by simp [hkeq]
        rw [List.eraseIdx_cons_zero, List.filter_cons, h2]
        simpa using h1
      · rw [if_neg hak, List.findIdx?_succ] at h
        obtain ⟨j, hj, rfl⟩ := Option.map_eq_some'.mp h
        have hnd' : (t.map Item.key).Nodup := by
          rw [List.map_cons, List.nodup_cons] at hnd
          exact hnd.2
        have h2 : ((a.key != k) : Bool) = true := by simpa using hak
        rw [List.eraseIdx_cons_succ, List.filter_cons, h2]
        simpa using filter_key_eraseIdx t k j hnd' hj

/-- C5: with an active session on a present id (and the unique-ids
invariant), deleteData erases exactly the record at the session id's
index, decreasing the length by one; with no active session (empty
editingKey, and no record carries the empty key) deleteData is the
identity. -/
theorem deleteData_spec (st : CState) :
    ((st.dataSource.map Item.key).Nodup →
      ∀ i, st.dataSource.findIdx? (fun r => r.key == st.editingKey) = some i →
        (deleteData st).dataSource = st.dataSource.eraseIdx i ∧
        (deleteData st).dataSource.length + 1 = st.dataSource.length ∧
        ∃ x, st.dataSource[i]? = some x ∧ x.key = st.editingKey) ∧
    (st.editingKey = "" → st.dataSource.all (fun r => r.key != "") = true →
      deleteData st = st) := by
  constructor
  · intro hnd i hi
    obtain ⟨hlt, hkey⟩ := findIdx?_key_facts hi
    have he : (deleteData st).dataSource = st.dataSource.eraseIdx i :=
      filter_key_eraseIdx _ _ _ hnd hi
    refine ⟨he, ?_, _, List.getElem?_eq_getElem hlt, hkey⟩
    rw [he, List.length_eraseIdx]
    simp only [hlt, if_pos]
    omega
  · intro hek hall
    have hfix : st.dataSource.filter (fun i => i.key != st.editingKey) = st.dataSource := by
      apply List.filter_eq_self.mpr
      intro x hx
      rw [hek]
      exact (List.all_eq_true.mp hall) x hx
    show { st with dataSource := st.dataSource.filter (fun i => i.key != st.editingKey) } = st
    rw [hfix]

/-- C5 (witness): deleteData evaluated on a session state (removes the
record at index 1) and on a session-free state (identity). -/
theorem deleteData_spec_check :
    (deleteData stM).dataSource = stM.dataSource.eraseIdx 1 ∧ deleteData stE = stE :=
  ⟨((deleteData_spec stM).1 (by decide) 1 (by decide)).1,
   (deleteData_spec stE).2 rfl (by decide)⟩

/-- The splice clamp at a natural start within the length is that start. -/
theorem jsSpliceStart_natCast (len i : Nat) (h : i ≤ len) :
    jsSpliceStart len (i : Int) = i := by
  unfold jsSpliceStart
  rw [if_neg (by omega : ¬((i : Int) < 0))]
  simp only [Int.toNat_ofNat]
  omega

/-- The drag-end move with both ids present reduces to erase-then-insert
at the two found indices. -/
theorem move_eq_insertIdx (l : List Item) (a b : String) (i j : Nat)
    (hab : a ≠ b)
    (ha : l.findIdx? (fun r => r.key == a) = some i)
    (hb : l.findIdx? (fun r => r.key == b) = some j)
    (hia : i < l.length) (hjb : j < l.length) :
    move l a b = (l.eraseIdx i).insertIdx j (l.get ⟨i, hia⟩) := by
  have hcond : ¬((a == b) = true) := by simp [hab]
  have herlen : (l.eraseIdx i).length = l.length - 1 := by
    rw [List.length_eraseIdx]
    simp [hia]
  unfold move
  rw [if_neg hcond,
    findIndexKey_eq_of_findIdx _ _ _ ha, findIndexKey_eq_of_findIdx _ _ _ hb]
  simp only [arrayMove]
  rw [if_neg (by omega : ¬((j : Int) < 0))]
  rw [jsSpliceStart_natCast l.length i (by omega)]
  rw [List.getElem?_eq_getElem hia]
  rw [herlen, jsSpliceStart_natCast (l.length - 1) j (by omega)]
  rfl

/-- C1: for distinct present ids a and b, the drag-end move produces a
permutation of the same elements in which the record with id a sits at
the index b originally occupied, and the relative order of all other
records (those whose key is not a) is preserved. -/
theorem move_relocates (l : List Item) (a b : String) (i j : Nat)
    (hab : a ≠ b)
    (ha : l.findIdx? (fun r => r.key == a) = some i)
    (hb : l.findIdx? (fun r => r.key == b) = some j) :
    (move l a b).Perm l ∧
    (∃ x, l[i]? = some x ∧ x.key = a ∧ (move l a b)[j]? = some x) ∧
    (move l a b).filter (fun r => r.key != a) = l.filter (fun r => r.key != a) := by
  obtain ⟨hia, hkeya⟩ := findIdx?_key_facts ha
  obtain ⟨hjb, hkeyb⟩ := findIdx?_key_facts hb
  have hmove := move_eq_insertIdx l a b i j hab ha hb hia hjb
  have herlen : (l.eraseIdx i).length = l.length - 1 := by
    rw [List.length_eraseIdx]
    simp [hia]
  have hj1 : j ≤ (l.eraseIdx i).length := by omega
  have hxfalse : (((l.get ⟨i, hia⟩).key != a) : Bool) = false := by simp [hkeya]
  refine ⟨move_perm l a b, ⟨l.get ⟨i, hia⟩, ?_, hkeya, ?_⟩, ?_⟩
  · exact List.getElem?_eq_getElem hia
  · rw [hmove]
    have hlen2 : ((l.eraseIdx i).insertIdx j (l.get ⟨i, hia⟩)).length
        = (l.eraseIdx i).length + 1 := List.length_insertIdx j _ hj1
    rw [List.getElem?_eq_getElem (by omega)]
    rw [List.getElem_insertIdx_self _ _ _ hj1]
  · rw [hmove,
      filter_insertIdx (fun r => r.key != a) (l.get ⟨i, hia⟩) hxfalse j (l.eraseIdx i),
      filter_eraseIdx_of_false (fun r => r.key != a) l i (l.get ⟨i, hia⟩)
        (List.getElem?_eq_getElem hia) hxfalse]

/-- C1 (witness): the spec's own example — in [A,B,C], dragging C onto
A's slot yields [C,A,B]: id "c" is relocated to index 0, the list stays
a permutation, and the other records keep their relative order. -/
theorem move_relocates_check :
    (move lABC "c" "a").Perm lABC ∧
    (∃ x, lABC[2]? = some x ∧ x.key = "c" ∧ (move lABC "c" "a")[0]? = some x) ∧
    (move lABC "c" "a").filter (fun r => r.key != "c")
      = lABC.filter (fun r => r.key != "c") :=
  move_relocates lABC "c" "a" 2 0 (by decide) (by decide) (by decide)

/-- C4: addData appends exactly one record — the length grows by one, the
old records survive unchanged as the prefix, the last slot holds the
fresh record with empty/default fields, the session references the fresh
id, and under a non-colliding fresh id the fresh key occurs exactly once. -/
theorem addData_spec (st : CState) (f : String)
    (hf : f ∉ st.dataSource.map Item.key) :
    (addData f st).dataSource.length = st.dataSource.length + 1 ∧
    (addData f st).dataSource.take st.dataSource.length = st.dataSource ∧
    (addData f st).dataSource[st.dataSource.length]? =
      some { key := f, columnName := "", length := none, fieldType := none,
             nullable := false, comment := none } ∧
    (addData f st).editingKey = f ∧
    ((addData f st).dataSource.map Item.key).count f = 1 := by
  refine ⟨?_, ?_, ?_, rfl, ?_⟩
  · simp [addData, edit]
  · show (st.dataSource ++ [_]).take st.dataSource.length = st.dataSource
    rw [List.take_left]
  · show (st.dataSource ++ [_])[st.dataSource.length]? = _
    rw [List.getElem?_concat_length]
  · show ((st.dataSource ++ [_]).map Item.key).count f = 1
    rw [List.map_append, List.count_append]
    have h0 : (st.dataSource.map Item.key).count f = 0 :=
      List.count_eq_zero.mpr hf
    rw [h0]
    simp

/-- C4 (witness): addData with fresh key "z" on the concrete state. -/
theorem addData_spec_check :
    (addData "z" stM).editingKey = "z" ∧
    ((addData "z" stM).dataSource.map Item.key).count "z" = 1 :=
  ⟨(addData_spec stM "z" (by decide)).2.2.2.1,
   (addData_spec stM "z" (by decide)).2.2.2.2⟩

/-- C6: with the session record found at index i, moveData('up') at the
first position and moveData('down') at the last position are the
identity; otherwise moveData swaps the session record with its immediate
neighbour in the respective direction (decomposition into the unchanged
prefix, the two swapped records, and the unchanged suffix) and leaves the
session identifier unchanged. -/
theorem moveData_spec (st : CState) (i : Nat)
    (hi : st.dataSource.findIdx? (fun r => r.key == st.editingKey) = some i) :
    (i = 0 → moveData .up st = st) ∧
    (i + 1 = st.dataSource.length → moveData .down st = st) ∧
    (∀ j, i = j + 1 →
      (moveData .up st).editingKey = st.editingKey ∧
      (moveData .up st).dataSource
        = st.dataSource.take j ++ st.dataSource.getD (j + 1) defaultItem ::
            st.dataSource.getD j defaultItem :: st.dataSource.drop (j + 2)) ∧
    (i + 1 < st.dataSource.length →
      (moveData .down st).editingKey = st.editingKey ∧
      (moveData .down st).dataSource
        = st.dataSource.take i ++ st.dataSource.getD (i + 1) defaultItem ::
            st.dataSource.getD i defaultItem :: st.dataSource.drop (i + 2)) := by
  obtain ⟨hlt, -⟩ := findIdx?_key_facts hi
  have hfk := findIndexKey_eq_of_findIdx _ _ _ hi
  refine ⟨?_, ?_, ?_, ?_⟩
  · intro h0
    rw [moveData_up_eq st i hfk, if_pos h0]
  · intro hlast
    rw [moveData_down_eq st i hfk, if_pos (by omega)]
  · rintro j rfl
    rw [moveData_up_eq st (j + 1) hfk, if_neg (by omega)]
    refine ⟨rfl, ?_⟩
    dsimp only
    simp only [Nat.add_sub_cancel]
    exact set_swap_up defaultItem st.dataSource j hlt
  · intro hdown
    rw [moveData_down_eq st i hfk, if_neg (by omega)]
    exact ⟨rfl, set_swap_down defaultItem st.dataSource i hdown⟩

/-- C6 (witness): on [A,B,C] with the session on B (index 1), 'up' swaps
B with A and keeps the session identifier. -/
theorem moveData_spec_check :
    (moveData .up stM).editingKey = stM.editingKey ∧
    (moveData .up stM).dataSource
      = stM.dataSource.take 0 ++ stM.dataSource.getD 1 defaultItem ::
          stM.dataSource.getD 0 defaultItem :: stM.dataSource.drop 2 :=
  (moveData_spec stM 1 (by decide)).2.2.1 0 rfl

/-- C7: a field-change event with buffer b keeps the session identifier,
the list length and every record whose key is not the session key; the
records carrying the session key become the merge of b over their current
fields, where merging preserves the key and leaves every field absent
from the buffer untouched while a present field overrides. -/
theorem formChange_spec (st : CState) (b : FormFields) :
    (formChange b st).editingKey = st.editingKey ∧
    (formChange b st).dataSource.length = st.dataSource.length ∧
    (∀ (j : Nat) (x : Item), st.dataSource[j]? = some x → x.key ≠ st.editingKey →
      (formChange b st).dataSource[j]? = some x) ∧
    (∀ (j : Nat) (x : Item), st.dataSource[j]? = some x → x.key = st.editingKey →
      (formChange b st).dataSource[j]? = some (mergeFields x b)) ∧
    (∀ x : Item, (mergeFields x b).key = x.key) ∧
    (b.columnName = none → ∀ x, (mergeFields x b).columnName = x.columnName) ∧
    (∀ v, b.columnName = some v → ∀ x, (mergeFields x b).columnName = v) ∧
    (b.length = none → ∀ x, (mergeFields x b).length = x.length) ∧
    (∀ v, b.length = some v → ∀ x, (mergeFields x b).length = v) ∧
    (b.fieldType = none → ∀ x, (mergeFields x b).fieldType = x.fieldType) ∧
    (∀ v, b.fieldType = some v → ∀ x, (mergeFields x b).fieldType = v) ∧
    (b.nullable = none → ∀ x, (mergeFields x b).nullable = x.nullable) ∧
    (∀ v, b.nullable = some v → ∀ x, (mergeFields x b).nullable = v) ∧
    (b.comment = none → ∀ x, (mergeFields x b).comment = x.comment) ∧
    (∀ v, b.comment = some v → ∀ x, (mergeFields x b).comment = v) := by
  refine ⟨rfl, by simp [formChange], ?_, ?_, fun x => rfl,
    ?_, ?_, ?_, ?_, ?_, ?_, ?_, ?_, ?_, ?_⟩
  · intro j x hj hne
    have hc : ((x.key == st.editingKey) : Bool) = false :=
      beq_eq_false_iff_ne.mpr hne
    show (st.dataSource.map _)[j]? = _
    rw [List.getElem?_map, hj]
    simp only [Option.map_some', Option.some.injEq]
    rw [if_neg (by simp [hc])]
  · intro j x hj heq
    have hc : ((x.key == st.editingKey) : Bool) = true := beq_iff_eq.mpr heq
    show (st.dataSource.map _)[j]? = _
    rw [List.getElem?_map, hj]
    simp only [Option.map_some', Option.some.injEq]
    rw [if_pos hc]
  · intro h x
    simp [mergeFields, h]
  · intro v h x
    simp [mergeFields, h]
  · intro h x
    simp [mergeFields, h]
  · intro v h x
    simp [mergeFields, h]
  · intro h x
    simp [mergeFields, h]
  · intro v h x
    simp [mergeFields, h]
  · intro h x
    simp [mergeFields, h]
  · intro v h x
    simp [mergeFields, h]
  · intro h x
    simp [mergeFields, h]
  · intro v h x
    simp [mergeFields, h]

/-- C7 (witness): the spec's example — on [A,B,C] with the session on B
and a buffer carrying only columnName := "x", record A is untouched and
record B becomes the merge. -/
theorem formChange_spec_check :
    (formChange bW stM).dataSource[0]? = some itemA ∧
    (formChange bW stM).dataSource[1]? = some (mergeFields itemB bW) :=
  ⟨(formChange_spec stM bW).2.2.1 0 itemA (by decide) (by decide),
   (formChange_spec stM bW).2.2.2.1 1 itemB (by decide) (by decide)⟩

/-- C9: uniqueness of keys is preserved by every list-changing operation:
addData under a non-colliding fresh key, deleteData, moveData in both
directions, and the drag-end move (for arbitrary ids, present or not). -/
theorem ids_unique :
    (∀ (st : CState) (f : String), (st.dataSource.map Item.key).Nodup →
      f ∉ st.dataSource.map Item.key →
      ((addData f st).dataSource.map Item.key).Nodup) ∧
    (∀ st : CState, (st.dataSource.map Item.key).Nodup →
      ((deleteData st).dataSource.map Item.key).Nodup) ∧
    (∀ (st : CState) (a : MoveAction), (st.dataSource.map Item.key).Nodup →
      ((moveData a st).dataSource.map Item.key).Nodup) ∧
    (∀ (l : List Item) (a b : String), (l.map Item.key).Nodup →
      ((move l a b).map Item.key).Nodup) := by
  refine ⟨?_, ?_, ?_, ?_⟩
  · intro st f hnd hf
    show ((st.dataSource ++ [_]).map Item.key).Nodup
    rw [List.map_append]
    exact (List.perm_append_singleton _ _).nodup_iff.mpr
      (List.nodup_cons.mpr ⟨hf, hnd⟩)
  · intro st hnd
    exact List.Nodup.sublist ((List.filter_sublist _).map Item.key) hnd
  · intro st a hnd
    exact ((moveData_perm a st).map Item.key).nodup_iff.mpr hnd
  · intro l a b hnd
    exact ((move_perm l a b).map Item.key).nodup_iff.mpr hnd

/-- C9 (witness): key uniqueness after addData with fresh key "z" and
after moveData('down') on the concrete session state. -/
theorem ids_unique_check :
    ((addData "z" stM).dataSource.map Item.key).Nodup ∧
    ((moveData .down stM).dataSource.map Item.key).Nodup :=
  ⟨ids_unique.1 stM "z" (by decide) (by decide),
   ids_unique.2.2.1 stM .down (by decide)⟩

end Chat2DB
